import Mathlib

/-!
Verification of `generate_transit.py`: a shallow embedding over ℚ of the
transit generator (planet positions, zodiac signs, aspect classification,
7-day batch assembly, and the optional Google-Drive publish step), together
with proofs of the specification's claims about it.

Real-number quantities of the source (ecliptic longitudes, daily speeds,
orbs) are embedded as rationals; Python's `round`, `int`, `%` and list
indexing are embedded by explicit functions below.  Calendar dates are
embedded as UTC day ordinals (an integer), with `timedelta(days=i)` as
integer addition; the source renders a date through `strftime`, an
injective function of the day.
-/

namespace GenerateTransit

/-- The fixed planet table `PLANETS` of the source, in declaration order:
body name paired with its Swiss Ephemeris body code
(`swe.SUN = 0`, `swe.MOON = 1`, ..., `swe.PLUTO = 9`, `swe.MEAN_NODE = 10`). -/
def PLANETS : List (String × ℤ) :=
  [("Sun", 0), ("Moon", 1), ("Mercury", 2), ("Venus", 3), ("Mars", 4),
   ("Jupiter", 5), ("Saturn", 6), ("Uranus", 7), ("Neptune", 8), ("Pluto", 9),
   ("NorthNode", 10)]

/-- The fixed zodiac sign table `SIGNS` of the source: 12 sign names in order
starting at 0°. -/
def SIGNS : List String :=
  ["牡羊座", "牡牛座", "双子座", "蟹座", "獅子座", "乙女座",
   "天秤座", "蠍座", "射手座", "山羊座", "水瓶座", "魚座"]

/-- Python `int(x)` on a real value: truncation toward zero. -/
def pyInt (q : ℚ) : ℤ := if q < 0 then ⌈q⌉ else ⌊q⌋

/-- Python `x % m` on real values: `x - m * floor(x / m)` (the result takes
the sign of the divisor `m`). -/
def pyMod (x m : ℚ) : ℚ := x - m * ⌊x / m⌋

/-- Python list indexing `xs[i]`: a nonnegative index reads from the front, a
negative index reads from the back, and an out-of-range index raises
`IndexError`, modelled as `none`. -/
def pyIndex {α : Type} (xs : List α) (i : ℤ) : Option α :=
  if 0 ≤ i then xs.get? i.toNat
  else if (-i).toNat ≤ xs.length then xs.get? (xs.length - (-i).toNat)
  else none

/-- Python `round(x)` to the nearest integer, ties going to the even integer. -/
def pyRound (q : ℚ) : ℤ :=
  if q - ⌊q⌋ < 1/2 then ⌊q⌋
  else if 1/2 < q - ⌊q⌋ then ⌊q⌋ + 1
  else if ⌊q⌋ % 2 = 0 then ⌊q⌋ else ⌊q⌋ + 1

/-- Python `round(x, 2)`. -/
def round2 (q : ℚ) : ℚ := (pyRound (q * 100) : ℚ) / 100

/-- Python `round(x, 4)`. -/
def round4 (q : ℚ) : ℚ := (pyRound (q * 10000) : ℚ) / 10000

/-- `get_sign(longitude)` of the source: `sign_num = int(longitude / 30)`,
`degree_in_sign = longitude % 30`, and the list lookup `SIGNS[sign_num]`,
whose `IndexError` on an out-of-range index is modelled as `none`. -/
def get_sign (longitude : ℚ) : Option (String × ℚ) :=
  (pyIndex SIGNS (pyInt (longitude / 30))).map (fun s => (s, pyMod longitude 30))

/-- One entry of the `aspects` list built by `calculate_aspects`. -/
structure AspectRecord where
  planet1 : String
  planet2 : String
  aspect : String
  orb : ℚ
deriving DecidableEq

/-- The `aspect_types` table of the source, in its (dict insertion) order:
aspect name, ideal angle in degrees, orb tolerance in degrees. -/
def aspect_types : List (String × ℚ × ℚ) :=
  [("conjunction", (0, 8)), ("sextile", (60, 6)), ("square", (90, 8)),
   ("trine", (120, 8)), ("opposition", (180, 8))]

/-- The separation computed by `calculate_aspects` for one pair:
`diff = abs(lon1 - lon2); if diff > 180: diff = 360 - diff`. -/
def separation (lon1 lon2 : ℚ) : ℚ :=
  if |lon1 - lon2| > 180 then 360 - |lon1 - lon2| else |lon1 - lon2|

/-- The inner aspect-type loop of `calculate_aspects` for one pair: the first
entry of `aspect_types` whose ideal angle is within its orb of the separation
is recorded (the `break`), with the orb rounded to 2 decimal places; no match
yields no record. -/
def classify_pair (p1 p2 : String) (lon1 lon2 : ℚ) : Option AspectRecord :=
  (aspect_types.find? (fun t => decide (|separation lon1 lon2 - t.2.1| ≤ t.2.2))).map
    (fun t => ⟨p1, p2, t.1, round2 |separation lon1 lon2 - t.2.1|⟩)

/-- `calculate_aspects(planets)` of the source.  The Python dict `planets` is
embedded as its ordered (name, longitude) association list; the double loop
`for i, p1 in enumerate(planet_names): for p2 in planet_names[i+1:]` is the
structural recursion on tails below.  Iterating the (name, longitude) pairs
directly agrees with the source's lookups `planets[p1]['longitude']` and
`planets[p2]['longitude']` because dict keys are unique. -/
def calculate_aspects : List (String × ℚ) → List AspectRecord
  | [] => []
  | p :: rest =>
      rest.filterMap (fun q => classify_pair p.1 q.1 p.2 q.2) ++ calculate_aspects rest

/-- The external ephemeris (`swe.calc_ut` at the fixed noon-UT hour of a
day): given a UTC day ordinal and a body code, the ecliptic longitude
(`result[0][0]`) and the daily speed (`result[0][3]`). -/
def Ephemeris : Type := ℤ → ℤ → ℚ × ℚ

/-- One body's record in `transit_data['planets']`. -/
structure PlanetPosition where
  longitude : ℚ
  sign : String
  degree : ℚ
  retrograde : Bool
  speed : ℚ
deriving DecidableEq

/-- The body of the planet loop of `calculate_transit` for one planet: query
the ephemeris, derive sign and degree through `get_sign` (whose `IndexError`
propagates), set `retrograde = speed < 0`, and round the stored longitude,
degree and speed. -/
def planet_entry (eph : Ephemeris) (date : ℤ) (name : String) (pid : ℤ) :
    Option (String × PlanetPosition) :=
  (get_sign (eph date pid).1).map (fun sd =>
    (name, ⟨round4 (eph date pid).1, sd.1, round2 sd.2,
            decide ((eph date pid).2 < 0), round4 (eph date pid).2⟩))

/-- The planet loop of `calculate_transit` over the `PLANETS` table; an
exception for any body aborts the whole computation. -/
def calc_planets (eph : Ephemeris) (date : ℤ) :
    List (String × ℤ) → Option (List (String × PlanetPosition))
  | [] => some []
  | (name, pid) :: rest =>
      match planet_entry eph date name pid with
      | none => none
      | some e =>
          match calc_planets eph date rest with
          | none => none
          | some l => some (e :: l)

/-- The `transit_data` dict built by `calculate_transit` for one day. -/
structure TransitData where
  date : ℤ
  planets : List (String × PlanetPosition)
  aspects : List AspectRecord
deriving DecidableEq

/-- `calculate_transit(date)` of the source.  The stored date is the UTC day
ordinal (the source stores `date.strftime('%Y-%m-%d')`, an injective
rendering of that day).  The aspects are computed from the planet dict just
built, i.e. from the rounded longitudes. -/
def calculate_transit (eph : Ephemeris) (date : ℤ) : Option TransitData :=
  (calc_planets eph date PLANETS).map (fun ps =>
    ⟨date, ps, calculate_aspects (ps.map (fun p => (p.1, p.2.longitude)))⟩)

/-- The process environment values read by the source
(`os.environ.get('GOOGLE_CREDENTIALS')`, `os.environ.get('FOLDER_ID')`). -/
structure Env where
  GOOGLE_CREDENTIALS : Option String
  FOLDER_ID : Option String

/-- One file visible in the remote folder: Drive id and name. -/
structure RemoteFile where
  id : String
  name : String

/-- The externally observable actions of a run: the local file write and the
remote Drive calls. -/
inductive Event
  | writeLocal (filename : String)
  | listFiles (folderId : String)
  | deleteFile (fileId : String)
  | uploadFile (name : String) (folderId : String)
deriving DecidableEq

/-- `pat in s` on character lists: some suffix of `s` starts with `pat`. -/
def containsSub (pat : List Char) : List Char → Bool
  | [] => pat.isEmpty
  | c :: t => pat.isPrefixOf (c :: t) || containsSub pat t

/-- The `name contains 'transit_'` filter of the source's Drive query. -/
def nameMatches (n : String) : Bool := containsSub "transit_".data n.data

/-- Characters of the last `'/'`-separated component, read off a reversed
character list. -/
def takeToSlash : List Char → List Char
  | [] => []
  | c :: t => if c = '/' then [] else c :: takeToSlash t

/-- `os.path.basename` for POSIX paths. -/
def basename (s : String) : String := ⟨(takeToSlash s.data.reverse).reverse⟩

/-- `upload_to_drive(file_path, folder_id)` of the source.  `store` is the
remote folder's current contents.  When `GOOGLE_CREDENTIALS` is unset,
`json.loads(None)` raises before any remote call: modelled as `none`.
Otherwise the result is the ordered trace of remote operations: the listing
query for names containing `'transit_'`, one delete per listed file, then
the upload of the new file. -/
def upload_to_drive (env : Env) (store : List RemoteFile) (file_path folder_id : String) :
    Option (List Event) :=
  match env.GOOGLE_CREDENTIALS with
  | none => none
  | some _ =>
      some (Event.listFiles folder_id ::
        ((store.filter (fun f => nameMatches f.name)).map (fun f => Event.deleteFile f.id)
          ++ [Event.uploadFile (basename file_path) folder_id]))

/-- Outcome of a run of `main`: the event trace, the computed batch (`none`
when the position computation aborted before the file write), and whether
the process terminated successfully. -/
structure RunOutcome where
  events : List Event
  transits : Option (List TransitData)
  ok : Bool
deriving DecidableEq

/-- The `for i in range(7)` loop of `main`: one `calculate_transit` per day
`today + i`, any failure aborting the run before the file write. -/
def transits_loop (eph : Ephemeris) (today : ℤ) : List ℕ → Option (List TransitData)
  | [] => some []
  | i :: rest =>
      match calculate_transit eph (today + i) with
      | none => none
      | some t =>
          match transits_loop eph today rest with
          | none => none
          | some ts => some (t :: ts)

/-- The output filename `transit_<date>.json`, the date being the run's UTC
start day (`strftime('%Y%m%d')` in the source, injective in the day). -/
def filename (today : ℤ) : String := "transit_" ++ toString today ++ ".json"

/-- `main()` of the source: generate the 7-day batch, write the local file,
then publish only when `FOLDER_ID` is set; a `none` from `upload_to_drive`
is the uncaught exception of the publish step (the local file is already
written). -/
def main (env : Env) (eph : Ephemeris) (store : List RemoteFile) (today : ℤ) : RunOutcome :=
  match transits_loop eph today (List.range 7) with
  | none => ⟨[], none, false⟩
  | some ts =>
      match env.FOLDER_ID with
      | none => ⟨[Event.writeLocal (filename today)], some ts, true⟩
      | some fid =>
          match upload_to_drive env store (filename today) fid with
          | none => ⟨[Event.writeLocal (filename today)], some ts, false⟩
          | some evs => ⟨Event.writeLocal (filename today) :: evs, some ts, true⟩

/-- Statement-side predicate: `r` is a record for the unordered pair
`{a, b}`. -/
def pairMatches (a b : String) (r : AspectRecord) : Bool :=
  decide ((r.planet1 = a ∧ r.planet2 = b) ∨ (r.planet1 = b ∧ r.planet2 = a))

/-- A concrete benign ephemeris for witnesses: every body at longitude 0°,
speed 1°/day. -/
def eph0 : Ephemeris := fun _ _ => (0, 1)

/-- A concrete ephemeris for witnesses: every body at longitude 10°, speed
-1°/day (retrograde). -/
def ephR : Ephemeris := fun _ _ => (10, -1)

/-- The position record every body gets under `ephR`. -/
def posR : PlanetPosition := ⟨10, "牡羊座", 10, true, -1⟩

/-- The position record every body gets under `eph0`. -/
def pos0 : PlanetPosition := ⟨0, "牡羊座", 0, false, 1⟩

/-- A concrete ephemeris for witnesses whose longitudes fall outside
`[0, 360)`. -/
def ephBig : Ephemeris := fun _ _ => (400, 1)

/-- A concrete remote folder state for witnesses: one old transit file and
one unrelated file. -/
def storeW : List RemoteFile :=
  [⟨"id1", "transit_old.json"⟩, ⟨"id2", "other.json"⟩]

/-! ## Basic facts about `get_sign` -/

theorem SIGNS_length : SIGNS.length = 12 := rfl

theorem pyInt_of_nonneg {q : ℚ} (h : 0 ≤ q) : pyInt q = ⌊q⌋ := by
  unfold pyInt
  rw [if_neg (not_lt.mpr h)]

theorem pyMod_nonneg {x m : ℚ} (hm : 0 < m) : 0 ≤ pyMod x m := by
  unfold pyMod
  have h1 : (⌊x / m⌋ : ℚ) ≤ x / m := Int.floor_le (x / m)
  have h2 : m * (⌊x / m⌋ : ℚ) ≤ m * (x / m) := by
    exact mul_le_mul_of_nonneg_left h1 (le_of_lt hm)
  have h3 : m * (x / m) = x := by field_simp
  linarith

theorem pyMod_lt {x m : ℚ} (hm : 0 < m) : pyMod x m < m := by
  unfold pyMod
  have h1 : x / m < (⌊x / m⌋ : ℚ) + 1 := Int.lt_floor_add_one (x / m)
  have h2 : m * (x / m) < m * ((⌊x / m⌋ : ℚ) + 1) :=
    mul_lt_mul_of_pos_left h1 hm
  have h3 : m * (x / m) = x := by field_simp
  nlinarith

/-- Claim C3: for every longitude `L` in `[0, 360)`, `get_sign L` returns the
sign at index `⌊L / 30⌋`, which lies in `[0, 11]`, and the degree-in-sign
`L mod 30` (here `pyMod L 30`), which lies in `[0, 30)`. -/
theorem get_sign_in_range (L : ℚ) (h0 : 0 ≤ L) (h1 : L < 360) :
    0 ≤ ⌊L / 30⌋ ∧ ⌊L / 30⌋ ≤ 11 ∧ 0 ≤ pyMod L 30 ∧ pyMod L 30 < 30 ∧
    ∃ s, SIGNS.get? (⌊L / 30⌋).toNat = some s ∧ get_sign L = some (s, pyMod L 30) := by
  have hq0 : (0 : ℚ) ≤ L / 30 := by positivity
  have hfl0 : 0 ≤ ⌊L / 30⌋ := Int.floor_nonneg.mpr hq0
  have hq12 : L / 30 < 12 := by
    rw [div_lt_iff₀ (by norm_num : (0 : ℚ) < 30)]
    linarith
  have hfl12 : ⌊L / 30⌋ < 12 := Int.floor_lt.mpr (by exact_mod_cast hq12)
  have hidx : (⌊L / 30⌋).toNat < SIGNS.length := by
    rw [SIGNS_length]; omega
  obtain ⟨s, hs⟩ : ∃ s, SIGNS.get? (⌊L / 30⌋).toNat = some s :=
    ⟨SIGNS.get ⟨(⌊L / 30⌋).toNat, hidx⟩, List.get?_eq_get hidx⟩
  refine ⟨hfl0, by omega, pyMod_nonneg (by norm_num), pyMod_lt (by norm_num), s, hs, ?_⟩
  unfold get_sign pyIndex
  rw [pyInt_of_nonneg hq0, if_pos hfl0, hs]
  rfl

/-- Witness for C3 at `L = 100`. -/
theorem get_sign_in_range_witness :
    0 ≤ pyMod (100 : ℚ) 30 ∧ pyMod (100 : ℚ) 30 < 30 ∧
    ∃ s, SIGNS.get? (⌊(100 : ℚ) / 30⌋).toNat = some s ∧
      get_sign 100 = some (s, pyMod 100 30) := by
  have h := get_sign_in_range 100 (by norm_num) (by norm_num)
  exact ⟨h.2.2.1, h.2.2.2.1, h.2.2.2.2⟩

/-- Claim C10: when the ephemeris longitude lies in `[0, 360)` the sign-table
index lies in `[0, 11]` and the lookup succeeds; for a longitude of 360 or
more the index is at least 12 and the lookup fails, and since
`calculate_transit` passes the raw ephemeris longitude to `get_sign` without
normalization, the whole planet entry fails. -/
theorem get_sign_index_safety (eph : Ephemeris) (date : ℤ) (name : String) (pid : ℤ) :
    (0 ≤ (eph date pid).1 → (eph date pid).1 < 360 →
      0 ≤ pyInt ((eph date pid).1 / 30) ∧ pyInt ((eph date pid).1 / 30) ≤ 11 ∧
      (get_sign (eph date pid).1).isSome = true) ∧
    (360 ≤ (eph date pid).1 →
      12 ≤ pyInt ((eph date pid).1 / 30) ∧ get_sign (eph date pid).1 = none ∧
      planet_entry eph date name pid = none) := by
  constructor
  · intro h0 h1
    obtain ⟨hfl0, hfl11, _, _, s, _, hgs⟩ := get_sign_in_range _ h0 h1
    rw [pyInt_of_nonneg (by positivity)]
    exact ⟨hfl0, hfl11, by rw [hgs]; rfl⟩
  · intro h360
    have hq0 : (0 : ℚ) ≤ (eph date pid).1 / 30 := by
      have : (0 : ℚ) ≤ (eph date pid).1 := by linarith
      positivity
    have h12 : (12 : ℚ) ≤ (eph date pid).1 / 30 := by
      rw [le_div_iff₀ (by norm_num : (0 : ℚ) < 30)]
      linarith
    have hfl : 12 ≤ ⌊(eph date pid).1 / 30⌋ := Int.le_floor.mpr (by exact_mod_cast h12)
    have hnone : get_sign (eph date pid).1 = none := by
      unfold get_sign pyIndex
      rw [pyInt_of_nonneg hq0, if_pos (by omega : (0 : ℤ) ≤ ⌊(eph date pid).1 / 30⌋),
        List.get?_eq_none.mpr (by rw [SIGNS_length]; omega)]
      rfl
    refine ⟨by rw [pyInt_of_nonneg hq0]; exact hfl, hnone, ?_⟩
    unfold planet_entry
    rw [hnone]
    rfl

/-- Witness for C10: longitude 100 succeeds, longitude 400 makes the whole
planet entry fail. -/
theorem get_sign_index_safety_witness :
    (get_sign (ephBig 0 0).1 = none ∧ planet_entry ephBig 0 "Sun" 0 = none) ∧
    (get_sign (eph0 0 0).1).isSome = true := by
  have hbig := (get_sign_index_safety ephBig 0 "Sun" 0).2 (by norm_num [ephBig])
  have hok := (get_sign_index_safety eph0 0 "Sun" 0).1 (by norm_num [eph0]) (by norm_num [eph0])
  exact ⟨⟨hbig.2.1, hbig.2.2⟩, hok.2.2⟩

/-! ## The angular separation -/

/-- Claim C4: for all longitudes in `[0, 360)` the separation computed by the
classifier lies in `[0, 180]` and is symmetric. -/
theorem separation_range_and_symm (l1 l2 : ℚ) (h1 : 0 ≤ l1) (h2 : l1 < 360)
    (h3 : 0 ≤ l2) (h4 : l2 < 360) :
    0 ≤ separation l1 l2 ∧ separation l1 l2 ≤ 180 ∧
      separation l1 l2 = separation l2 l1 := by
  have habs : |l1 - l2| < 360 := abs_lt.mpr ⟨by linarith, by linarith⟩
  unfold separation
  rw [abs_sub_comm l2 l1]
  split_ifs with h
  · exact ⟨by linarith, by linarith, rfl⟩
  · exact ⟨abs_nonneg _, by linarith, rfl⟩

/-- Witness for C4 at `(10, 183)`. -/
theorem separation_range_and_symm_witness :
    (0 ≤ separation 10 183 ∧ separation 10 183 ≤ 180 ∧
      separation 10 183 = separation 183 10) ∧ separation 10 183 = 173 := by
  refine ⟨separation_range_and_symm 10 183 (by norm_num) (by norm_num) (by norm_num)
    (by norm_num), ?_⟩
  norm_num [separation]

/-! ## The aspect classifier -/

theorem calculate_aspects_cons (p : String × ℚ) (rest : List (String × ℚ)) :
    calculate_aspects (p :: rest) =
      rest.filterMap (fun q => classify_pair p.1 q.1 p.2 q.2) ++ calculate_aspects rest :=
  rfl

theorem classify_pair_eq_some {p1 p2 : String} {lon1 lon2 : ℚ} {r : AspectRecord}
    (h : classify_pair p1 p2 lon1 lon2 = some r) :
    r.planet1 = p1 ∧ r.planet2 = p2 := by
  unfold classify_pair at h
  cases hf : aspect_types.find? (fun t => decide (|separation lon1 lon2 - t.2.1| ≤ t.2.2)) with
  | none => rw [hf] at h; simp at h
  | some t =>
      rw [hf, Option.map_some'] at h
      rw [← Option.some_inj.mp h]
      exact ⟨rfl, rfl⟩

theorem mem_calculate_aspects {l : List (String × ℚ)} {r : AspectRecord}
    (h : r ∈ calculate_aspects l) :
    r.planet1 ∈ l.map Prod.fst ∧ r.planet2 ∈ l.map Prod.fst := by
  induction l with
  | nil => simp [calculate_aspects] at h
  | cons p rest ih =>
      rw [calculate_aspects_cons, List.mem_append] at h
      simp only [List.map_cons]
      rcases h with h | h
      · obtain ⟨q, hq, hcl⟩ := List.mem_filterMap.mp h
        obtain ⟨h1, h2⟩ := classify_pair_eq_some hcl
        exact ⟨h1 ▸ List.mem_cons_self _ _,
          h2 ▸ List.mem_cons_of_mem _ (List.mem_map_of_mem Prod.fst hq)⟩
      · obtain ⟨h1, h2⟩ := ih h
        exact ⟨List.mem_cons_of_mem _ h1, List.mem_cons_of_mem _ h2⟩

theorem countP_filterMap_le {α β : Type} (f : α → Option β) (P : β → Bool) (Q : α → Bool)
    (l : List α) (h : ∀ x ∈ l, ∀ y, f x = some y → P y = true → Q x = true) :
    (l.filterMap f).countP P ≤ l.countP Q := by
  induction l with
  | nil => simp
  | cons x t ih =>
      have ht := ih (fun a ha y hy hP => h a (List.mem_cons_of_mem x ha) y hy hP)
      cases hf : f x with
      | none =>
          simp only [List.filterMap_cons, hf, List.countP_cons]
          exact le_trans ht (Nat.le_add_right _ _)
      | some y =>
          simp only [List.filterMap_cons, hf, List.countP_cons]
          by_cases hP : P y = true
          · have hQ : Q x = true := h x (List.mem_cons_self x t) y hf hP
            simp only [hP, hQ, if_true]
            omega
          · rw [if_neg hP, Nat.add_zero]
            exact le_trans ht (Nat.le_add_right _ _)

theorem countP_eq_key_le_one (rest : List (String × ℚ))
    (hnd : (rest.map Prod.fst).Nodup) (b : String) :
    rest.countP (fun q => decide (q.1 = b)) ≤ 1 := by
  induction rest with
  | nil => simp
  | cons x t ih =>
      rw [List.map_cons, List.nodup_cons] at hnd
      rw [List.countP_cons]
      by_cases hx : x.1 = b
      · have h0 : t.countP (fun q => decide (q.1 = b)) = 0 := by
          apply List.countP_eq_zero.mpr
          intro q hq
          simp only [decide_eq_true_eq]
          intro hqb
          exact hnd.1 (hx ▸ hqb ▸ List.mem_map_of_mem Prod.fst hq)
        simp [h0, hx]
      · rw [if_neg (by simp [hx] : ¬(decide (x.1 = b) = true)), Nat.add_zero]
        exact ih hnd.2

theorem pairMatches_comm (a b : String) (r : AspectRecord) :
    pairMatches a b r = pairMatches b a r := by
  unfold pairMatches
  exact decide_eq_decide.mpr or_comm

/-- In `calculate_aspects l`, no record involves a name absent from `l`. -/
theorem countP_pairMatches_eq_zero {l : List (String × ℚ)} {a : String} (b : String)
    (ha : a ∉ l.map Prod.fst) :
    (calculate_aspects l).countP (pairMatches a b) = 0 := by
  apply List.countP_eq_zero.mpr
  intro r hr
  obtain ⟨h1, h2⟩ := mem_calculate_aspects hr
  simp only [pairMatches, decide_eq_true_eq]
  rintro (⟨ha', _⟩ | ⟨_, ha'⟩)
  · exact ha (ha' ▸ h1)
  · exact ha (ha' ▸ h2)

/-- Head case for the at-most-one-record bound: when the head planet is `a`,
the head's inner loop contributes at most one `{a, b}` record and the
recursive call contributes none. -/
theorem aspects_cons_count_le_one {p : String × ℚ} {rest : List (String × ℚ)} {a b : String}
    (hp : p.1 ∉ rest.map Prod.fst) (hrest : (rest.map Prod.fst).Nodup) (hab : a ≠ b)
    (hpa : p.1 = a) :
    (rest.filterMap (fun q => classify_pair p.1 q.1 p.2 q.2)).countP (pairMatches a b)
      + (calculate_aspects rest).countP (pairMatches a b) ≤ 1 := by
  have hrest0 : (calculate_aspects rest).countP (pairMatches a b) = 0 :=
    countP_pairMatches_eq_zero b (hpa ▸ hp)
  have hchunk :
      (rest.filterMap (fun q => classify_pair p.1 q.1 p.2 q.2)).countP (pairMatches a b) ≤ 1 := by
    refine le_trans
      (countP_filterMap_le _ _ (fun q => decide (q.1 = b)) rest ?_)
      (countP_eq_key_le_one rest hrest b)
    intro q _ r hcl hP
    obtain ⟨h1, h2⟩ := classify_pair_eq_some hcl
    simp only [pairMatches, decide_eq_true_eq] at hP
    simp only [decide_eq_true_eq]
    rcases hP with ⟨_, hb'⟩ | ⟨hb', _⟩
    · rw [← h2]; exact hb'
    · exact absurd (by rw [← hpa, ← h1, hb']) hab
  omega

/-- Claim C5: for every set of positions with distinct body names, the
classifier's output contains at most one record for each unordered pair of
distinct bodies. -/
theorem calculate_aspects_at_most_one (l : List (String × ℚ)) (a b : String)
    (hnd : (l.map Prod.fst).Nodup) (hab : a ≠ b) :
    (calculate_aspects l).countP (pairMatches a b) ≤ 1 := by
  induction l with
  | nil => simp [calculate_aspects]
  | cons p rest ih =>
      rw [List.map_cons, List.nodup_cons] at hnd
      obtain ⟨hp, hrest⟩ := hnd
      rw [calculate_aspects_cons, List.countP_append]
      by_cases hpa : p.1 = a
      · exact aspects_cons_count_le_one hp hrest hab hpa
      by_cases hpb : p.1 = b
      · have hcomm : ∀ chunk : List AspectRecord,
            chunk.countP (pairMatches a b) = chunk.countP (pairMatches b a) :=
          fun chunk => List.countP_congr (fun r _ => by rw [pairMatches_comm a b r])
        rw [hcomm, hcomm]
        exact aspects_cons_count_le_one hp hrest (Ne.symm hab) hpb
      · have hchunk0 :
            (rest.filterMap (fun q => classify_pair p.1 q.1 p.2 q.2)).countP
              (pairMatches a b) = 0 := by
          apply List.countP_eq_zero.mpr
          intro r hr
          obtain ⟨q, _, hcl⟩ := List.mem_filterMap.mp hr
          obtain ⟨h1, _⟩ := classify_pair_eq_some hcl
          simp only [pairMatches, decide_eq_true_eq]
          rintro (⟨ha', _⟩ | ⟨hb', _⟩)
          · exact hpa (h1 ▸ ha')
          · exact hpb (h1 ▸ hb')
        rw [hchunk0, Nat.zero_add]
        exact ih hrest

/-- Witness for C5 on a concrete three-body day in which Sun–Moon are within
two aspect bands' reach but only one record exists. -/
theorem calculate_aspects_at_most_one_witness :
    (calculate_aspects [("Sun", 10), ("Moon", 70), ("Mercury", 200)]).countP
      (pairMatches "Sun" "Moon") ≤ 1 := by
  exact calculate_aspects_at_most_one [("Sun", 10), ("Moon", 70), ("Mercury", 200)]
    "Sun" "Moon" (by simp) (by simp)

theorem calculate_aspects_cons' (a : String) (la : ℚ) (rest : List (String × ℚ)) :
    calculate_aspects ((a, la) :: rest) =
      rest.filterMap (fun q => classify_pair a q.1 la q.2) ++ calculate_aspects rest :=
  rfl

/-- No record of `calculate_aspects l` matches a pair `{a, b}` when `a` does
not occur among `l`'s names. -/
theorem filter_pairMatches_eq_nil {l : List (String × ℚ)} {a : String} (b : String)
    (ha : a ∉ l.map Prod.fst) :
    (calculate_aspects l).filter (pairMatches a b) = [] := by
  apply List.filter_eq_nil_iff.mpr
  intro r hr
  obtain ⟨h1, h2⟩ := mem_calculate_aspects hr
  simp only [pairMatches, decide_eq_true_eq]
  rintro (⟨ha', _⟩ | ⟨_, ha'⟩)
  · exact ha (ha' ▸ h1)
  · exact ha (ha' ▸ h2)

/-- The inner loop of the head planet `a` produces no `{a, b}` record from
entries whose names avoid `b`. -/
theorem filter_chunk_head_a {a b : String} {la : ℚ} {l : List (String × ℚ)} (hab : a ≠ b)
    (hb : b ∉ l.map Prod.fst) :
    (l.filterMap (fun q => classify_pair a q.1 la q.2)).filter (pairMatches a b) = [] := by
  apply List.filter_eq_nil_iff.mpr
  intro r hr
  obtain ⟨q, hq, hcl⟩ := List.mem_filterMap.mp hr
  obtain ⟨h1, h2⟩ := classify_pair_eq_some hcl
  simp only [pairMatches, decide_eq_true_eq]
  rintro (⟨_, hb'⟩ | ⟨hb', _⟩)
  · have hqb : q.1 = b := by rw [← h2, hb']
    exact hb (hqb ▸ List.mem_map_of_mem Prod.fst hq)
  · exact hab (by rw [← h1, hb'])

/-- The inner loop of a head planet distinct from both `a` and `b` produces
no `{a, b}` record at all. -/
theorem filter_chunk_other {x : String × ℚ} {l : List (String × ℚ)} {a b : String}
    (hxa : x.1 ≠ a) (hxb : x.1 ≠ b) :
    (l.filterMap (fun q => classify_pair x.1 q.1 x.2 q.2)).filter (pairMatches a b) = [] := by
  apply List.filter_eq_nil_iff.mpr
  intro r hr
  obtain ⟨q, _, hcl⟩ := List.mem_filterMap.mp hr
  obtain ⟨h1, _⟩ := classify_pair_eq_some hcl
  simp only [pairMatches, decide_eq_true_eq]
  rintro (⟨ha', _⟩ | ⟨hb', _⟩)
  · exact hxa (h1 ▸ ha')
  · exact hxb (h1 ▸ hb')

/-- The records for the unordered pair `{a, b}` in the classifier's output
are exactly the result of the single pair test of `a` against `b`, provided
all names are distinct. -/
theorem filter_calculate_aspects (pre mid post : List (String × ℚ)) (a b : String)
    (la lb : ℚ)
    (hnd : ((pre ++ (a, la) :: (mid ++ (b, lb) :: post)).map Prod.fst).Nodup) :
    (calculate_aspects (pre ++ (a, la) :: (mid ++ (b, lb) :: post))).filter (pairMatches a b)
      = (classify_pair a b la lb).toList := by
  induction pre with
  | nil =>
      rw [List.nil_append] at hnd ⊢
      rw [List.map_cons, List.nodup_cons] at hnd
      obtain ⟨ha, hrest⟩ := hnd
      have hb_mem : b ∈ (mid ++ (b, lb) :: post).map Prod.fst := by simp
      have hab : a ≠ b := fun h => ha (h ▸ hb_mem)
      rw [List.map_append, List.map_cons, List.nodup_append] at hrest
      have hbmid : b ∉ mid.map Prod.fst :=
        fun hmem => hrest.2.2 hmem (List.mem_cons_self _ _)
      have hbpost : b ∉ post.map Prod.fst := by
        have h := hrest.2.1
        rw [List.nodup_cons] at h
        exact h.1
      rw [calculate_aspects_cons', List.filter_append, filter_pairMatches_eq_nil b ha,
        List.append_nil, List.filterMap_append, List.filter_append,
        filter_chunk_head_a hab hbmid, List.nil_append]
      simp only [List.filterMap_cons]
      cases hcl : classify_pair a b la lb with
      | none =>
          rw [filter_chunk_head_a hab hbpost]
          rfl
      | some r =>
          obtain ⟨h1, h2⟩ := classify_pair_eq_some hcl
          rw [List.filter_cons, if_pos (by simp [pairMatches, h1, h2]),
            filter_chunk_head_a hab hbpost]
          rfl
  | cons x pre ih =>
      rw [List.cons_append] at hnd ⊢
      rw [List.map_cons, List.nodup_cons] at hnd
      obtain ⟨hx, hrest⟩ := hnd
      have hamem : a ∈ (pre ++ (a, la) :: (mid ++ (b, lb) :: post)).map Prod.fst := by simp
      have hbmem : b ∈ (pre ++ (a, la) :: (mid ++ (b, lb) :: post)).map Prod.fst := by simp
      have hxa : x.1 ≠ a := fun h => hx (h ▸ hamem)
      have hxb : x.1 ≠ b := fun h => hx (h ▸ hbmem)
      rw [calculate_aspects_cons, List.filter_append, filter_chunk_other hxa hxb,
        List.nil_append]
      exact ih hrest

/-- Claim C1: for a day's positions with distinct body names and a pair of
distinct bodies `a` (listed first) and `b`, the classifier's records for the
unordered pair `{a, b}` are exactly: the first entry of the fixed table
`aspect_types` — conjunction (0°, 8), sextile (60°, 6), square (90°, 8),
trine (120°, 8), opposition (180°, 8), in that order — whose ideal angle is
within its orb of the shortest-arc separation, recorded with planets
`(a, b)` and the absolute deviation rounded to 2 decimal places; and no
record when no entry matches. -/
theorem calculate_aspects_per_pair (pre mid post : List (String × ℚ)) (a b : String)
    (la lb : ℚ)
    (hnd : ((pre ++ (a, la) :: (mid ++ (b, lb) :: post)).map Prod.fst).Nodup) :
    (calculate_aspects (pre ++ (a, la) :: (mid ++ (b, lb) :: post))).filter (pairMatches a b)
      = match aspect_types.find? (fun t => decide (|separation la lb - t.2.1| ≤ t.2.2)) with
        | some t => [⟨a, b, t.1, round2 |separation la lb - t.2.1|⟩]
        | none => [] := by
  rw [filter_calculate_aspects pre mid post a b la lb hnd]
  unfold classify_pair
  cases hf : aspect_types.find? (fun t => decide (|separation la lb - t.2.1| ≤ t.2.2)) with
  | none => rfl
  | some t => rfl

/-- Witness for C1: Sun at 10°, Moon at 183° — separation 173°, matching
opposition with recorded orb 7. -/
theorem calculate_aspects_per_pair_witness :
    (calculate_aspects [("Sun", (10 : ℚ)), ("Moon", 183)]).filter (pairMatches "Sun" "Moon")
      = [⟨"Sun", "Moon", "opposition", 7⟩] := by
  have h := calculate_aspects_per_pair [] [] [] "Sun" "Moon" 10 183 (by simp)
  simp only [List.nil_append] at h
  rw [h]
  norm_num [aspect_types, separation, round2, pyRound, List.find?]

/-- The double loop of `calculate_aspects`, written with explicit indices as
in the source (`enumerate` and the slice `planet_names[i+1:]`). -/
theorem calculate_aspects_enumFrom (l pre : List (String × ℚ)) :
    calculate_aspects l = (List.enumFrom pre.length l).flatMap (fun ip =>
      ((pre ++ l).drop (ip.1 + 1)).filterMap
        (fun q => classify_pair ip.2.1 q.1 ip.2.2 q.2)) := by
  induction l generalizing pre with
  | nil => rfl
  | cons x t ih =>
      rw [calculate_aspects_cons, List.enumFrom_cons, List.flatMap_cons]
      have hdrop : (pre ++ x :: t).drop (pre.length + 1) = t := by
        have h1 : pre ++ x :: t = (pre ++ [x]) ++ t := by simp
        have h2 : pre.length + 1 = (pre ++ [x]).length := by simp
        rw [h1, h2, List.drop_left]
      rw [hdrop]
      have ih' := ih (pre ++ [x])
      rw [List.length_append, List.length_singleton, List.append_assoc,
        List.singleton_append] at ih'
      rw [ih']

/-- Claim C9: the aspect classifier is deterministic and idempotent — equal
inputs give identical, identically ordered outputs — and the pair visiting
order is the outer loop over bodies in enumeration order with the inner loop
over all later bodies (`enumerate` / slice form of the double loop). -/
theorem calculate_aspects_deterministic (p q : List (String × ℚ)) (h : p = q) :
    calculate_aspects p = calculate_aspects q ∧
    calculate_aspects p = (List.enumFrom 0 p).flatMap (fun ip =>
      (p.drop (ip.1 + 1)).filterMap (fun y => classify_pair ip.2.1 y.1 ip.2.2 y.2)) := by
  constructor
  · rw [h]
  · have := calculate_aspects_enumFrom p []
    rw [List.nil_append] at this
    exact this

/-- Witness for C9 on a concrete two-body input. -/
theorem calculate_aspects_deterministic_witness :
    calculate_aspects [("Sun", (10 : ℚ)), ("Moon", 70)]
        = calculate_aspects [("Sun", (10 : ℚ)), ("Moon", 70)] ∧
    calculate_aspects [("Sun", (10 : ℚ)), ("Moon", 70)]
        = (List.enumFrom 0 [("Sun", (10 : ℚ)), ("Moon", 70)]).flatMap (fun ip =>
            ([("Sun", (10 : ℚ)), ("Moon", 70)].drop (ip.1 + 1)).filterMap
              (fun y => classify_pair ip.2.1 y.1 ip.2.2 y.2)) :=
  calculate_aspects_deterministic [("Sun", (10 : ℚ)), ("Moon", 70)]
    [("Sun", (10 : ℚ)), ("Moon", 70)] rfl

/-! ## The per-day transit computation -/

theorem planet_entry_eq_some {eph : Ephemeris} {date : ℤ} {name : String} {pid : ℤ}
    {e : String × PlanetPosition} (h : planet_entry eph date name pid = some e) :
    e.1 = name ∧ e.2.retrograde = decide ((eph date pid).2 < 0) := by
  unfold planet_entry at h
  cases hg : get_sign (eph date pid).1 with
  | none => rw [hg] at h; simp at h
  | some sd =>
      rw [hg, Option.map_some'] at h
      rw [← Option.some_inj.mp h]
      exact ⟨rfl, rfl⟩

theorem calc_planets_mem {eph : Ephemeris} {date : ℤ} {ps : List (String × ℤ)}
    {l : List (String × PlanetPosition)} (h : calc_planets eph date ps = some l)
    {name : String} {r : PlanetPosition} (hmem : (name, r) ∈ l) :
    ∃ pid, (name, pid) ∈ ps ∧ planet_entry eph date name pid = some (name, r) := by
  induction ps generalizing l with
  | nil =>
      simp only [calc_planets, Option.some_inj] at h
      subst h
      simp at hmem
  | cons p rest ih =>
      obtain ⟨pname, pid⟩ := p
      cases he : planet_entry eph date pname pid with
      | none =>
          simp only [calc_planets, he] at h
          exact Option.noConfusion h
      | some e =>
          cases hc : calc_planets eph date rest with
          | none =>
              simp only [calc_planets, he, hc] at h
              exact Option.noConfusion h
          | some l' =>
              simp only [calc_planets, he, hc, Option.some_inj] at h
              subst h
              rcases List.mem_cons.mp hmem with hme | hml
              · obtain ⟨hn, _⟩ := planet_entry_eq_some he
                rw [← hme] at hn he
                simp only at hn
                subst hn
                exact ⟨pid, List.mem_cons_self _ _, he⟩
              · obtain ⟨pid', hmem', hpe⟩ := ih hc hml
                exact ⟨pid', List.mem_cons_of_mem _ hmem', hpe⟩

/-- Claim C7: in every computed transit, a body's `retrograde` flag is true
exactly when the raw ephemeris daily speed is strictly negative; in
particular, speed exactly 0 gives `retrograde = false`. -/
theorem retrograde_iff_negative_speed (eph : Ephemeris) (date : ℤ) (td : TransitData)
    (h : calculate_transit eph date = some td) (name : String) (r : PlanetPosition)
    (hmem : (name, r) ∈ td.planets) :
    ∃ pid, (name, pid) ∈ PLANETS ∧ (r.retrograde = true ↔ (eph date pid).2 < 0) ∧
      ((eph date pid).2 = 0 → r.retrograde = false) := by
  unfold calculate_transit at h
  cases hc : calc_planets eph date PLANETS with
  | none => rw [hc] at h; simp at h
  | some ps =>
      rw [hc, Option.map_some'] at h
      have htd : td.planets = ps := by rw [← Option.some_inj.mp h]
      rw [htd] at hmem
      obtain ⟨pid, hpid, hpe⟩ := calc_planets_mem hc hmem
      have hret : r.retrograde = decide ((eph date pid).2 < 0) :=
        (planet_entry_eq_some hpe).2
      refine ⟨pid, hpid, ?_, ?_⟩
      · rw [hret]
        exact decide_eq_true_iff
      · intro h0
        rw [hret, h0]
        norm_num

/-- Witness for C7 under the everywhere-retrograde ephemeris `ephR`. -/
theorem retrograde_iff_negative_speed_witness :
    ∃ td, calculate_transit ephR 0 = some td ∧
      ∃ r, ("Sun", r) ∈ td.planets ∧
        ∃ pid, ("Sun", pid) ∈ PLANETS ∧ (r.retrograde = true ↔ (ephR 0 pid).2 < 0) ∧
          ((ephR 0 pid).2 = 0 → r.retrograde = false) := by
  have hps : calc_planets ephR 0 PLANETS = some (PLANETS.map (fun p => (p.1, posR))) := by
    norm_num [calc_planets, planet_entry, PLANETS, ephR, get_sign, pyIndex, pyInt, pyMod,
      SIGNS, round2, round4, pyRound, posR, List.get?]
  have htd : calculate_transit ephR 0 = some ⟨0, PLANETS.map (fun p => (p.1, posR)),
      calculate_aspects ((PLANETS.map (fun p => (p.1, posR))).map
        (fun p => (p.1, p.2.longitude)))⟩ := by
    rw [calculate_transit, hps]
    rfl
  have hmem : ("Sun", posR) ∈ PLANETS.map (fun p => (p.1, posR)) := by
    simp [PLANETS]
  exact ⟨_, htd, posR, hmem,
    retrograde_iff_negative_speed ephR 0 _ htd "Sun" posR hmem⟩

/-! ## The 7-day batch of `main` -/

theorem calculate_transit_date {eph : Ephemeris} {d : ℤ} {td : TransitData}
    (h : calculate_transit eph d = some td) : td.date = d := by
  unfold calculate_transit at h
  cases hc : calc_planets eph d PLANETS with
  | none => rw [hc] at h; simp at h
  | some ps =>
      rw [hc, Option.map_some'] at h
      rw [← Option.some_inj.mp h]

theorem transits_loop_dates {eph : Ephemeris} {today : ℤ} {idxs : List ℕ}
    {ts : List TransitData} (h : transits_loop eph today idxs = some ts) :
    ts.map (fun t => t.date) = idxs.map (fun i : ℕ => today + (i : ℤ)) := by
  induction idxs generalizing ts with
  | nil =>
      simp only [transits_loop, Option.some_inj] at h
      subst h
      rfl
  | cons i rest ih =>
      cases hc : calculate_transit eph (today + (i : ℤ)) with
      | none =>
          simp only [transits_loop, hc] at h
          exact Option.noConfusion h
      | some t =>
          cases hr : transits_loop eph today rest with
          | none =>
              simp only [transits_loop, hc, hr] at h
              exact Option.noConfusion h
          | some ts' =>
              simp only [transits_loop, hc, hr, Option.some_inj] at h
              subst h
              simp only [List.map_cons]
              rw [calculate_transit_date hc, ih hr]

/-- Every successful run's batch comes from the 7-day loop. -/
theorem main_transits_eq_loop {env : Env} {eph : Ephemeris} {store : List RemoteFile}
    {today : ℤ} {ts : List TransitData}
    (h : (main env eph store today).transits = some ts) :
    transits_loop eph today (List.range 7) = some ts := by
  unfold main at h
  split at h
  · simp at h
  · split at h
    · simp only at h
      rw [Option.some_inj] at h
      subst h
      assumption
    · split at h
      · simp only at h
        rw [Option.some_inj] at h
        subst h
        assumption
      · simp only at h
        rw [Option.some_inj] at h
        subst h
        assumption

/-- Claim C6: every run's batch has exactly 7 entries, in order, for 7
consecutive calendar dates starting at the run's UTC start date, with no
gaps and no duplicate dates. -/
theorem batch_seven_consecutive (env : Env) (eph : Ephemeris) (store : List RemoteFile)
    (today : ℤ) (ts : List TransitData)
    (h : (main env eph store today).transits = some ts) :
    ts.length = 7 ∧
    ts.map (fun t => t.date) = (List.range 7).map (fun i : ℕ => today + (i : ℤ)) ∧
    (ts.map (fun t => t.date)).Nodup := by
  have hdates := transits_loop_dates (main_transits_eq_loop h)
  refine ⟨?_, hdates, ?_⟩
  · have hlen := congrArg List.length hdates
    simpa using hlen
  · rw [hdates]
    exact List.Nodup.map (fun i j hij => by omega) (List.nodup_range 7)

theorem calc_planets_eph0 (d : ℤ) :
    calc_planets eph0 d PLANETS = some (PLANETS.map (fun p => (p.1, pos0))) := by
  norm_num [calc_planets, planet_entry, PLANETS, eph0, get_sign, pyIndex, pyInt, pyMod,
    SIGNS, round2, round4, pyRound, pos0, List.get?]

theorem calculate_transit_eph0 (d : ℤ) :
    calculate_transit eph0 d = some ⟨d, PLANETS.map (fun p => (p.1, pos0)),
      calculate_aspects ((PLANETS.map (fun p => (p.1, pos0))).map
        (fun p => (p.1, p.2.longitude)))⟩ := by
  rw [calculate_transit, calc_planets_eph0]
  rfl

/-- The benign run under `eph0` completes its 7-day loop. -/
theorem transits_loop_eph0 : ∃ ts, transits_loop eph0 0 (List.range 7) = some ts := by
  have h : (transits_loop eph0 0 (List.range 7)).isSome = true := by
    have h7 : List.range 7 = [0, 1, 2, 3, 4, 5, 6] := rfl
    rw [h7]
    simp only [transits_loop, calculate_transit_eph0, Option.isSome_some]
  exact Option.isSome_iff_exists.mp h

/-- Witness for C6 under the benign run. -/
theorem batch_seven_consecutive_witness :
    ∃ ts, (main ⟨none, none⟩ eph0 [] 0).transits = some ts ∧ ts.length = 7 := by
  obtain ⟨ts, hts⟩ := transits_loop_eph0
  have hm : (main ⟨none, none⟩ eph0 [] 0).transits = some ts := by
    unfold main
    rw [hts]
  exact ⟨ts, hm, (batch_seven_consecutive ⟨none, none⟩ eph0 [] 0 ts hm).1⟩

/-! ## The publish step -/

/-- Claim C2 as stated is refuted at a concrete input: with
`GOOGLE_CREDENTIALS` absent but `FOLDER_ID` present, the publish step is not
skipped-as-success; the run writes the local file, attempts the publish step
(`json.loads(None)` raises inside `upload_to_drive` before any remote call),
and terminates unsuccessfully. -/
theorem publish_gating_counterexample :
    (⟨none, some "folder"⟩ : Env).GOOGLE_CREDENTIALS = none ∧
    (main ⟨none, some "folder"⟩ eph0 [] 0).ok = false := by
  refine ⟨rfl, ?_⟩
  obtain ⟨ts, hts⟩ := transits_loop_eph0
  unfold main
  rw [hts]
  rfl

/-- Claim C2 amended: only the absence of `FOLDER_ID` disables the publish
step — then no remote call is attempted, the local file is still produced
and the run terminates successfully.  When `FOLDER_ID` is present but
`GOOGLE_CREDENTIALS` is absent, the local file is produced and no remote
call is attempted, but the run terminates unsuccessfully (the credential
load inside the publish step raises). -/
theorem publish_gating (env : Env) (eph : Ephemeris) (store : List RemoteFile)
    (today : ℤ) (ts : List TransitData)
    (h : transits_loop eph today (List.range 7) = some ts) :
    (env.FOLDER_ID = none →
      main env eph store today = ⟨[Event.writeLocal (filename today)], some ts, true⟩) ∧
    (env.GOOGLE_CREDENTIALS = none → ∀ fid, env.FOLDER_ID = some fid →
      main env eph store today = ⟨[Event.writeLocal (filename today)], some ts, false⟩) := by
  constructor
  · intro hf
    unfold main
    rw [h, hf]
  · intro hc fid hf
    unfold main
    rw [h, hf]
    unfold upload_to_drive
    rw [hc]

/-- Witness for the amended C2: the publish-disabled benign run. -/
theorem publish_gating_witness :
    ∃ ts, transits_loop eph0 0 (List.range 7) = some ts ∧
      main ⟨none, none⟩ eph0 [] 0 = ⟨[Event.writeLocal (filename 0)], some ts, true⟩ := by
  obtain ⟨ts, hts⟩ := transits_loop_eph0
  exact ⟨ts, hts, (publish_gating ⟨none, none⟩ eph0 [] 0 ts hts).1 rfl⟩

theorem get?_ne_last {α : Type} {l : List α} {j : ℕ} {a b : α} (hj : l.get? j = some a)
    (hlast : l.getLast? = some b) (hab : a ≠ b) : j + 1 < l.length := by
  have hjlen : j < l.length := (List.get?_eq_some.mp hj).1
  rcases Nat.lt_or_ge (j + 1) l.length with hlt | hge
  · exact hlt
  · exfalso
    have hj1 : j = l.length - 1 := by omega
    rw [hj1, List.get?_eq_getElem?, ← List.getLast?_eq_getElem?, hlast] at hj
    exact hab (Option.some_inj.mp hj).symm

/-- Claim C8: whenever the publish step runs, its trace is exactly the
listing query, then one delete per listed entry whose name contains
`'transit_'`, then the upload of the new file; the upload is the last event,
strictly after every delete. -/
theorem upload_replace_then_upload (env : Env) (store : List RemoteFile)
    (file_path folder_id : String) (t : List Event)
    (h : upload_to_drive env store file_path folder_id = some t) :
    t = Event.listFiles folder_id ::
        ((store.filter (fun f => nameMatches f.name)).map (fun f => Event.deleteFile f.id)
          ++ [Event.uploadFile (basename file_path) folder_id]) ∧
    t.getLast? = some (Event.uploadFile (basename file_path) folder_id) ∧
    ∀ j x, t.get? j = some (Event.deleteFile x) → j + 1 < t.length := by
  have ht : t = Event.listFiles folder_id ::
      ((store.filter (fun f => nameMatches f.name)).map (fun f => Event.deleteFile f.id)
        ++ [Event.uploadFile (basename file_path) folder_id]) := by
    unfold upload_to_drive at h
    split at h
    · exact Option.noConfusion h
    · exact (Option.some_inj.mp h).symm
  subst ht
  have hlast : (Event.listFiles folder_id ::
      ((store.filter (fun f => nameMatches f.name)).map (fun f => Event.deleteFile f.id)
        ++ [Event.uploadFile (basename file_path) folder_id])).getLast?
      = some (Event.uploadFile (basename file_path) folder_id) := by
    rw [← List.cons_append]
    exact List.getLast?_concat _
  exact ⟨rfl, hlast, fun j x hj => get?_ne_last hj hlast (by simp)⟩

/-- Witness for C8: a folder holding one old `transit_` file and one
unrelated file — the old file is listed and deleted, then the new file is
uploaded last. -/
theorem upload_replace_then_upload_witness :
    upload_to_drive ⟨some "c", some "fol"⟩ storeW "transit_1.json" "fol" =
      some [Event.listFiles "fol", Event.deleteFile "id1",
        Event.uploadFile "transit_1.json" "fol"] ∧
    [Event.listFiles "fol", Event.deleteFile "id1",
      Event.uploadFile "transit_1.json" "fol"].getLast? =
      some (Event.uploadFile "transit_1.json" "fol") := by
  have h : upload_to_drive ⟨some "c", some "fol"⟩ storeW "transit_1.json" "fol" =
      some [Event.listFiles "fol", Event.deleteFile "id1",
        Event.uploadFile "transit_1.json" "fol"] := by
    rfl
  exact ⟨h, ((upload_replace_then_upload _ _ _ _ _ h).2).1⟩

end GenerateTransit
